import Mathlib

/-!
Shallow embedding of the hive-rewarder delegation accounting and payout
engine: `src/scripts/utils.js`, `src/scripts/accumulator.js`,
`src/scripts/fetch_rewards.js`, `src/scripts/send_sbi.js` and the
delegation-history generator (`fetch_real_delegators.js`).

Modelling conventions:
* JavaScript numbers are modelled as exact rationals; `parseFloat(x.toFixed(p))`
  is modelled as rounding to `p` decimal places with ties rounded up.
* JSON objects keyed by delegator id are modelled as association lists
  (`List (String × _)`) when the code iterates over entries, and as total
  functions `String → List _` (defaulting to the empty list) for the
  delegation-history map, mirroring `delegationHistory[delegator] || []`.
* Asynchronous network sends are modelled by a success oracle; file
  persistence is modelled explicitly as durable state so that crash/restart
  schedules can be expressed.
-/

namespace HiveRewarder

/-- Rounding to `p` decimal places: the model of JavaScript
`parseFloat(x.toFixed(p))` (exact on rationals; ties round upward). -/
def roundTo (p : ℕ) (x : ℚ) : ℚ := (⌊x * 10 ^ p + 1 / 2⌋ : ℚ) / 10 ^ p

/-- Model of `utils.js` `formatHIVE(amount, decimals = 3)`: format a number to fixed
decimal places (always used at the default 3). -/
def formatHIVE (amount : ℚ) : ℚ := roundTo 3 amount

/-- Model of `utils.js` (first revision, lines 45-47) `getMultiplier`:
`return totalDelegationHP < 10000 ? 3 : 1`. -/
def getMultiplier (totalDelegationHP : ℚ) : ℚ :=
  if totalDelegationHP < 10000 then 3 else 1

/-- Model of `utils.js` (second revision, lines 120-142) `getMultiplier`: a piecewise
linear taper from 3.0 down to a 0.5 floor, then `Math.max(0.5, m)` and
`parseFloat(m.toFixed(3))`.  The input coercion `Number(x) || 0` is the
identity on an already-numeric argument. -/
def getMultiplierPiecewise (totalDelegationHP : ℚ) : ℚ :=
  let totalHP := totalDelegationHP
  let m : ℚ :=
    if totalHP < 10000 then 3
    else if totalHP < 20000 then 3 - (totalHP - 10000) / 10000
    else if totalHP < 30000 then 2 - (totalHP - 20000) / 10000
    else if totalHP < 40000 then 1 - (totalHP - 30000) / 10000 * (1 / 2)
    else 1 / 2
  roundTo 3 (max (1 / 2) m)

/-- Evaluation rule for `roundTo` at concrete arguments: if `n` brackets
`x * 10^p + 1/2` from below then the rounded value is `n / 10^p`. -/
theorem roundTo_eq_of_bounds (p : ℕ) (x : ℚ) (n : ℤ)
    (h1 : (n : ℚ) ≤ x * 10 ^ p + 1 / 2) (h2 : x * 10 ^ p + 1 / 2 < n + 1) :
    roundTo p x = (n : ℚ) / 10 ^ p := by
  unfold roundTo
  rw [show ⌊x * 10 ^ p + 1 / 2⌋ = n from Int.floor_eq_iff.mpr ⟨h1, by exact_mod_cast h2⟩]

/-- Rounding via `roundTo` moves its argument by at most half a unit in the last place. -/
theorem abs_roundTo_sub_le (p : ℕ) (x : ℚ) :
    |roundTo p x - x| ≤ 1 / (2 * 10 ^ p) := by
  have hp : (0:ℚ) < 10 ^ p := by positivity
  set F : ℚ := (⌊x * 10 ^ p + 1 / 2⌋ : ℚ) with hF
  have hfl : F ≤ x * 10 ^ p + 1 / 2 := Int.floor_le _
  have hfg : x * 10 ^ p + 1 / 2 - 1 < F := Int.sub_one_lt_floor _
  have hkey : |F - x * 10 ^ p| ≤ 1 / 2 := by
    rw [abs_le]
    constructor <;> linarith
  have heq : roundTo p x - x = (F - x * 10 ^ p) / 10 ^ p := by
    rw [roundTo, ← hF]
    field_simp
    ring
  rw [heq, abs_div, abs_of_pos hp, div_le_div_iff hp (by positivity)]
  calc |F - x * 10 ^ p| * (2 * 10 ^ p) ≤ (1 / 2) * (2 * 10 ^ p) := by
        apply mul_le_mul_of_nonneg_right hkey
        positivity
    _ = 1 * 10 ^ p := by ring

/-- C5: the multiplier policy returns 3.0 at a total eligible stake of 8000
(below the 10000 tier boundary) in both revisions of `getMultiplier`, and the
piecewise-linear revision returns, at 25000, the value interpolated between
the adjacent tier bounds 2.0 (at 20000) and 1.0 (at 30000), namely
`2 - (25000 - 20000)/10000 = 1.5`. -/
theorem C5_multiplier_tiers :
    getMultiplier 8000 = 3 ∧ getMultiplierPiecewise 8000 = 3 ∧
      getMultiplierPiecewise 25000 = 2 - (25000 - 20000) / 10000 := by
  refine ⟨by norm_num [getMultiplier], ?_, ?_⟩
  · show roundTo 3 (max (1 / 2) (if (8000:ℚ) < 10000 then 3 else _)) = 3
    rw [if_pos (by norm_num)]
    rw [show max (1/2 : ℚ) 3 = 3 by norm_num]
    rw [roundTo_eq_of_bounds 3 3 3000 (by norm_num) (by norm_num)]
    norm_num
  · show roundTo 3 (max (1 / 2)
      (if (25000:ℚ) < 10000 then 3
       else if (25000:ℚ) < 20000 then 3 - (25000 - 10000) / 10000
       else if (25000:ℚ) < 30000 then 2 - (25000 - 20000) / 10000
       else if (25000:ℚ) < 40000 then 1 - (25000 - 30000) / 10000 * (1 / 2)
       else 1 / 2)) = 2 - (25000 - 20000) / 10000
    rw [if_neg (by norm_num), if_neg (by norm_num), if_pos (by norm_num)]
    rw [show max (1/2 : ℚ) (2 - (25000 - 20000) / 10000) = 3/2 by norm_num]
    rw [roundTo_eq_of_bounds 3 (3/2) 1500 (by norm_num) (by norm_num)]
    norm_num

/-! ### Calendar formatting -/

/-- Two-digit zero padding for date components. -/
def pad2 (n : ℕ) : String := if n < 10 then "0" ++ toString n else toString n

/-- The `YYYY-MM-DD` date string of a Unix timestamp in milliseconds, as
produced by `new Date(timestamp).toISOString().split('T')[0]` (proleptic
Gregorian calendar, via the standard civil-from-days conversion). -/
def isoDate (tsMs : ℤ) : String :=
  let z : ℤ := Int.fdiv tsMs 86400000 + 719468
  let era : ℤ := Int.fdiv z 146097
  let doe : ℤ := z - era * 146097
  let yoe : ℤ :=
    Int.fdiv (doe - Int.fdiv doe 1460 + Int.fdiv doe 36524 - Int.fdiv doe 146096) 365
  let y : ℤ := yoe + era * 400
  let doy : ℤ := doe - (365 * yoe + Int.fdiv yoe 4 - Int.fdiv yoe 100)
  let mp : ℤ := Int.fdiv (5 * doy + 2) 153
  let d : ℤ := doy - Int.fdiv (153 * mp + 2) 5 + 1
  let m : ℤ := mp + (if mp < 10 then 3 else -9)
  let yy : ℤ := y + (if m ≤ 2 then 1 else 0)
  toString yy ++ "-" ++ pad2 m.toNat ++ "-" ++ pad2 d.toNat

/-! ### Sorting

JavaScript `array.sort(comparator)` is modelled by a stable insertion sort:
`le a b = true` means `a` may stay before `b`. -/

/-- Insert `a` into `l` in front of the first element `b` with `le a b`
(stable: `a` goes after existing elements it ties with). -/
def insertSorted (le : α → α → Bool) (a : α) : List α → List α
  | [] => [a]
  | b :: bs => if le a b then a :: b :: bs else b :: insertSorted le a bs

/-- Stable insertion sort with comparator `le`. -/
def sortBy (le : α → α → Bool) : List α → List α
  | [] => []
  | a :: rest => insertSorted le a (sortBy le rest)

theorem insertSorted_perm (le : α → α → Bool) (a : α) (l : List α) :
    (insertSorted le a l).Perm (a :: l) := by
  induction l with
  | nil => exact List.Perm.refl _
  | cons b bs ih =>
    unfold insertSorted
    by_cases hc : le a b = true
    · rw [if_pos hc]
    · rw [if_neg hc]
      exact ((ih.cons b).trans (List.Perm.swap a b bs))

theorem sortBy_perm (le : α → α → Bool) (l : List α) : (sortBy le l).Perm l := by
  induction l with
  | nil => exact List.Perm.refl _
  | cons a rest ih =>
    exact (insertSorted_perm le a (sortBy le rest)).trans (ih.cons a)

/-! ### Delegation ledger (`fetch_real_delegators.js`) -/

/-- The pool account: `process.env.HIVE_USER` defaulting to `bayanihive` at its default. -/
def ACCOUNT : String := "bayanihive"

/-- Model of `vestsToHP(vests, totalVestingFundHive, totalVestingShares)`. -/
def vestsToHP (vests totalVestingFundHive totalVestingShares : ℚ) : ℚ :=
  vests * totalVestingFundHive / totalVestingShares

/-- One row of raw account history as consumed by the ledger builder.  The
source iterates `[index, op]` pairs; `delegator`, `delegatee` and
`vesting_shares` are the `op.op[1]` payload fields of a
`delegate_vesting_shares` operation (unused for other operation types), and
`timestamp` is the parsed operation time in milliseconds. -/
structure RawOp where
  opType : String
  delegator : String
  delegatee : String
  vesting_shares : ℚ
  timestamp : ℤ

/-- A per-contributor ledger entry `{vests, totalVests, hp, timestamp, date}`:
`vests` is the stored delta, `totalVests` the running total after the event. -/
structure DelegationEntry where
  vests : ℚ
  totalVests : ℚ
  hp : ℚ
  timestamp : ℤ
  date : String

/-- The dust threshold: deltas with `|delta| ≤ 0.000001` are discarded. -/
def epsilonVests : ℚ := 1 / 1000000

/-- The previous running total for a contributor: the `totalVests` of the
last recorded entry, or 0 when there is none
(`previousEvents.length > 0 ? previousEvents[...].totalVests : 0`). -/
def lastTotal (events : List DelegationEntry) : ℚ :=
  match events.getLast? with
  | some e => e.totalVests
  | none => 0

/-- A delegation history: contributor id → ordered entry list.  JSON-object
lookup of an absent key yields the empty list, so the map is total. -/
def DelegationHistory : Type := String → List DelegationEntry

/-- The empty delegation history (`{}`). -/
def emptyHistory : DelegationHistory := fun _ => []

/-- The delta-push step shared by `buildDelegationHistory` and
`mergeNewDelegationEvents`: compute `deltaVests = totalVests - previousTotal`
against the contributor's last recorded total and append a new entry when
`|deltaVests| > 0.000001`, otherwise discard the event.  `hpArg` is the
crude HP value whose 3-decimal rounding is stored.  (The source also
materialises an empty entry array for a first-seen contributor before the
epsilon test; with total-function histories that is a no-op.) -/
def pushDelegationEvent (h : DelegationHistory) (delegator : String)
    (totalVests hpArg : ℚ) (timestamp : ℤ) (date : String) : DelegationHistory :=
  let previousEvents := h delegator
  let previousTotal := lastTotal previousEvents
  let deltaVests := totalVests - previousTotal
  if |deltaVests| > epsilonVests then
    Function.update h delegator (previousEvents ++
      [{ vests := deltaVests, totalVests := totalVests, hp := roundTo 3 hpArg,
         timestamp := timestamp, date := date }])
  else h

/-- An extracted delegation event (a `delegationEvents` row in
`buildDelegationHistory`); `hp` is already rounded to 3 decimals there. -/
structure DelegationEvent where
  delegator : String
  totalVests : ℚ
  hp : ℚ
  timestamp : ℤ
  date : String

/-- The first loop of `buildDelegationHistory`: keep the
`delegate_vesting_shares` operations targeting the pool account. -/
def extractDelegationEvents (totalVestingFundHive totalVestingShares : ℚ)
    (rawHistory : List (ℕ × RawOp)) : List DelegationEvent :=
  rawHistory.filterMap fun row =>
    if row.2.opType = "delegate_vesting_shares" ∧ row.2.delegatee = ACCOUNT then
      some { delegator := row.2.delegator, totalVests := row.2.vesting_shares,
             hp := roundTo 3
               (vestsToHP row.2.vesting_shares totalVestingFundHive totalVestingShares),
             timestamp := row.2.timestamp, date := isoDate row.2.timestamp }
    else none

/-- Model of `buildDelegationHistory(rawHistory, totalVestingFundHive, totalVestingShares)`:
extract the delegation events, sort them ascending by timestamp
(`events.sort((a, b) => a.timestamp - b.timestamp)`), then fold the delta
push over an initially empty history. -/
def buildDelegationHistory (rawHistory : List (ℕ × RawOp))
    (totalVestingFundHive totalVestingShares : ℚ) : DelegationHistory :=
  let delegationEvents := sortBy (fun a b => decide (a.timestamp ≤ b.timestamp))
    (extractDelegationEvents totalVestingFundHive totalVestingShares rawHistory)
  delegationEvents.foldl
    (fun h e => pushDelegationEvent h e.delegator e.totalVests e.hp e.timestamp e.date)
    emptyHistory

/-- Model of `mergeNewDelegationEvents(existingHistory, newOperations, f, s)`: fold the
delta push over the new operations in their given order (the caller has
sorted them ascending by history index), recomputing `hp` from the global
properties. -/
def mergeNewDelegationEvents (existingHistory : DelegationHistory)
    (newOperations : List (ℕ × RawOp))
    (totalVestingFundHive totalVestingShares : ℚ) : DelegationHistory :=
  newOperations.foldl
    (fun h row =>
      if row.2.opType = "delegate_vesting_shares" ∧ row.2.delegatee = ACCOUNT then
        pushDelegationEvent h row.2.delegator row.2.vesting_shares
          (vestsToHP row.2.vesting_shares totalVestingFundHive totalVestingShares)
          row.2.timestamp (isoDate row.2.timestamp)
      else h)
    existingHistory

/-! ### The ledger replay invariant (C2) -/

/-- The sum of a contributor's stored deltas. -/
def replaySum (events : List DelegationEntry) : ℚ := (events.map (fun e => e.vests)).sum

/-- The ledger replay invariant: for every contributor, replaying the stored
deltas in order reproduces the latest recorded total stake (0 with no
entries). -/
def replayInvariant (h : DelegationHistory) : Prop :=
  ∀ d : String, replaySum (h d) = lastTotal (h d)

theorem lastTotal_concat (es : List DelegationEntry) (e : DelegationEntry) :
    lastTotal (es ++ [e]) = e.totalVests := by
  unfold lastTotal
  rw [List.getLast?_concat]

theorem replaySum_concat (es : List DelegationEntry) (e : DelegationEntry) :
    replaySum (es ++ [e]) = replaySum es + e.vests := by
  unfold replaySum
  rw [List.map_append, List.sum_append]
  simp

theorem replayInvariant_push (h : DelegationHistory) (delegator : String)
    (totalVests hpArg : ℚ) (timestamp : ℤ) (date : String)
    (hinv : replayInvariant h) :
    replayInvariant (pushDelegationEvent h delegator totalVests hpArg timestamp date) := by
  unfold pushDelegationEvent
  by_cases hc : |totalVests - lastTotal (h delegator)| > epsilonVests
  · rw [if_pos hc]
    intro d
    by_cases hd : d = delegator
    · subst hd
      rw [Function.update_same, replaySum_concat, lastTotal_concat, hinv d]
      ring
    · rw [Function.update_noteq hd]
      exact hinv d
  · rw [if_neg hc]
    exact hinv

theorem replayInvariant_foldl {α : Type} (step : DelegationHistory → α → DelegationHistory)
    (hstep : ∀ h a, replayInvariant h → replayInvariant (step h a)) :
    ∀ (l : List α) (h : DelegationHistory),
      replayInvariant h → replayInvariant (l.foldl step h) := by
  intro l
  induction l with
  | nil => intro h hh; exact hh
  | cons a rest ih =>
    intro h hh
    exact ih (step h a) (hstep h a hh)

/-- C2: for every contributor in a delegation history produced by
`buildDelegationHistory` or by `mergeNewDelegationEvents` (from any history
already satisfying the invariant), the sum of all stored deltas (`vests`)
equals the `totalVests` of the contributor's last entry (0 when the
contributor has no entries), even though sub-epsilon deltas are discarded. -/
theorem C2_ledger_replay :
    (∀ (rawHistory : List (ℕ × RawOp)) (f s : ℚ),
      replayInvariant (buildDelegationHistory rawHistory f s)) ∧
    (∀ (h : DelegationHistory) (newOperations : List (ℕ × RawOp)) (f s : ℚ),
      replayInvariant h →
      replayInvariant (mergeNewDelegationEvents h newOperations f s)) := by
  constructor
  · intro rawHistory f s
    apply replayInvariant_foldl
    · intro h e hh
      exact replayInvariant_push h e.delegator e.totalVests e.hp e.timestamp e.date hh
    · intro d
      rfl
  · intro h ops f s hh
    apply replayInvariant_foldl
    · intro hh2 row hrow
      by_cases hc : row.2.opType = "delegate_vesting_shares" ∧ row.2.delegatee = ACCOUNT
      · rw [if_pos hc]
        exact replayInvariant_push _ _ _ _ _ _ hrow
      · rw [if_neg hc]
        exact hrow
    · exact hh

/-- Witness for C2: merging one concrete delegation event into the empty
history (which satisfies the invariant) yields a history satisfying the
replay equation at the affected contributor. -/
theorem C2_ledger_replay_witness :
    replaySum (mergeNewDelegationEvents emptyHistory
        [(1, ⟨"delegate_vesting_shares", "carol", "bayanihive", 100, 0⟩)] 1 1 "carol") =
      lastTotal (mergeNewDelegationEvents emptyHistory
        [(1, ⟨"delegate_vesting_shares", "carol", "bayanihive", 100, 0⟩)] 1 1 "carol") :=
  C2_ledger_replay.2 emptyHistory
    [(1, ⟨"delegate_vesting_shares", "carol", "bayanihive", 100, 0⟩)] 1 1
    (fun _ => rfl) "carol"

/-! ### Merge idempotence (C3) -/

/-- C3 counterexample: merge is not idempotent for an already-merged event
that is no longer the contributor's latest.  After merging two events for
"dora" (total 100, then total 200), re-merging the first event recomputes
`delta = 100 - 200 = -100`, which passes the epsilon test, so a third
(spurious) entry is appended: the history does not stay unchanged. -/
theorem C3_remerge_cex :
    ((mergeNewDelegationEvents
        (mergeNewDelegationEvents emptyHistory
          [(1, ⟨"delegate_vesting_shares", "dora", "bayanihive", 100, 1000⟩),
           (2, ⟨"delegate_vesting_shares", "dora", "bayanihive", 200, 2000⟩)] 1 1)
        [(1, ⟨"delegate_vesting_shares", "dora", "bayanihive", 100, 1000⟩)] 1 1) "dora").length
      = 3 ∧
    ((mergeNewDelegationEvents emptyHistory
        [(1, ⟨"delegate_vesting_shares", "dora", "bayanihive", 100, 1000⟩),
         (2, ⟨"delegate_vesting_shares", "dora", "bayanihive", 200, 2000⟩)] 1 1) "dora").length
      = 2 := by
  constructor <;>
    norm_num [mergeNewDelegationEvents, pushDelegationEvent, emptyHistory, lastTotal,
      epsilonVests, Function.update, ACCOUNT, List.foldl]

/-- C3 (amended): merging an event a second time is a no-op exactly while it
is still the contributor's most recent recorded event — its `totalVests`
still equals the last stored total, so the recomputed delta is 0, which is
at most epsilon, and the event is discarded.  (Re-merging an event older
than the contributor's latest entry instead appends a spurious delta entry,
as the counterexample shows.) -/
theorem C3_merge_noop_latest :
    ∀ (h : DelegationHistory) (idx : ℕ) (op : RawOp) (f s : ℚ),
      op.opType = "delegate_vesting_shares" → op.delegatee = ACCOUNT →
      op.vesting_shares = lastTotal (h op.delegator) →
      mergeNewDelegationEvents h [(idx, op)] f s = h := by
  intro h idx op f s h1 h2 h3
  unfold mergeNewDelegationEvents
  simp only [List.foldl]
  rw [if_pos ⟨h1, h2⟩]
  simp only [pushDelegationEvent]
  rw [h3, sub_self, abs_zero, if_neg]
  norm_num [epsilonVests]

/-- Witness for C3's amended statement: immediately re-merging the latest
event for "erin" leaves the one-entry history unchanged. -/
theorem C3_merge_noop_latest_witness :
    mergeNewDelegationEvents
        (mergeNewDelegationEvents emptyHistory
          [(1, ⟨"delegate_vesting_shares", "erin", "bayanihive", 100, 1000⟩)] 1 1)
        [(1, ⟨"delegate_vesting_shares", "erin", "bayanihive", 100, 1000⟩)] 1 1 =
      mergeNewDelegationEvents emptyHistory
        [(1, ⟨"delegate_vesting_shares", "erin", "bayanihive", 100, 1000⟩)] 1 1 :=
  C3_merge_noop_latest _ 1 ⟨"delegate_vesting_shares", "erin", "bayanihive", 100, 1000⟩ 1 1
    rfl rfl
    (by norm_num [mergeNewDelegationEvents, pushDelegationEvent, emptyHistory, lastTotal,
      epsilonVests, Function.update, ACCOUNT, List.foldl])

/-! ### Eligibility calculator (C4)

The per-contributor eligibility loop of `main`: sort the entries ascending
by timestamp, walk the deltas keeping a running balance, snapshot
`max 0 runningBalance` whenever the event is at or before the cutoff, and
finally clamp the eligible value by the (clamped) current delegation. -/

/-- One iteration of the eligibility walk: state is
`(runningBalance, eligibleVests)`. -/
def eligibleStep (cutoff : ℤ) (st : ℚ × ℚ) (e : DelegationEntry) : ℚ × ℚ :=
  let runningBalance := st.1 + e.vests
  (runningBalance, if e.timestamp ≤ cutoff then max 0 runningBalance else st.2)

/-- The full walk over the sorted entries, from `(0, 0)`. -/
def eligibleWalk (cutoff : ℤ) (events : List DelegationEntry) : ℚ × ℚ :=
  (sortBy (fun a b => decide (a.timestamp ≤ b.timestamp)) events).foldl
    (eligibleStep cutoff) (0, 0)

/-- The computed eligible stake:
`eligibleVests = Math.min(eligibleVests, Math.max(0, runningBalance))`. -/
def eligibleVests (cutoff : ℤ) (events : List DelegationEntry) : ℚ :=
  min (eligibleWalk cutoff events).2 (max 0 (eligibleWalk cutoff events).1)

/-- The property asserted by C4, stated literally: the eligible stake is at
least 0, at most the final running balance of the delta walk, and zero
whenever that final balance is at most 0. -/
def C4Stated (cutoff : ℤ) (events : List DelegationEntry) : Prop :=
  0 ≤ eligibleVests cutoff events ∧
  eligibleVests cutoff events ≤ (eligibleWalk cutoff events).1 ∧
  ((eligibleWalk cutoff events).1 ≤ 0 → eligibleVests cutoff events = 0)

/-- C4 counterexample: for a history whose deltas sum to a negative current
balance (an over-withdrawal, which the spec itself contemplates), the
computed eligible stake is 0, which is *greater* than the final running
balance −5, so the claimed bound `eligible ≤ finalRunningBalance` fails. -/
theorem C4_eligibility_cex :
    ¬ C4Stated 0 [⟨-5, -5, -5, 0, "1970-01-01"⟩] := by
  intro hcl
  have h2 := hcl.2.1
  have he : eligibleVests 0 [⟨-5, -5, -5, 0, "1970-01-01"⟩] = 0 := by
    norm_num [eligibleVests, eligibleWalk, sortBy, insertSorted, eligibleStep, List.foldl]
  have hw : (eligibleWalk 0 [⟨-5, -5, -5, 0, "1970-01-01"⟩]).1 = -5 := by
    norm_num [eligibleWalk, sortBy, insertSorted, eligibleStep, List.foldl]
  rw [he, hw] at h2
  norm_num at h2

theorem eligibleWalk_snd_nonneg (cutoff : ℤ) (l : List DelegationEntry)
    (st : ℚ × ℚ) (hst : 0 ≤ st.2) : 0 ≤ (l.foldl (eligibleStep cutoff) st).2 := by
  induction l generalizing st with
  | nil => exact hst
  | cons e rest ih =>
    apply ih
    show 0 ≤ if e.timestamp ≤ cutoff then 0 ⊔ (st.1 + e.vests) else st.2
    by_cases hc : e.timestamp ≤ cutoff
    · rw [if_pos hc]
      exact le_max_left 0 _
    · rw [if_neg hc]
      exact hst

/-- C4 (amended): the computed eligible stake is at least 0, at most the
*clamped* current stake `max 0 finalRunningBalance` (when the final running
balance is negative the eligible stake is 0, not bounded by the negative
balance), and zero whenever the final running balance is at most 0. -/
theorem C4_eligibility_bounds :
    ∀ (cutoff : ℤ) (events : List DelegationEntry),
      0 ≤ eligibleVests cutoff events ∧
      eligibleVests cutoff events ≤ max 0 (eligibleWalk cutoff events).1 ∧
      ((eligibleWalk cutoff events).1 ≤ 0 → eligibleVests cutoff events = 0) := by
  intro cutoff events
  have hsnd : 0 ≤ (eligibleWalk cutoff events).2 :=
    eligibleWalk_snd_nonneg cutoff _ (0, 0) le_rfl
  refine ⟨le_min hsnd (le_max_left 0 _), min_le_right _ _, ?_⟩
  intro hfin
  have hmax : max 0 (eligibleWalk cutoff events).1 = 0 := max_eq_left hfin
  unfold eligibleVests
  rw [hmax]
  exact le_antisymm (min_le_right _ _) (le_min hsnd le_rfl)

/-- Witness for C4's amended statement at the counterexample history: the
final running balance is −5 ≤ 0 and the eligible stake evaluates to 0. -/
theorem C4_eligibility_bounds_witness :
    eligibleVests 0 [⟨-5, -5, -5, 0, "1970-01-01"⟩] = 0 :=
  (C4_eligibility_bounds 0 [⟨-5, -5, -5, 0, "1970-01-01"⟩]).2.2
    (by norm_num [eligibleWalk, sortBy, insertSorted, eligibleStep, List.foldl])

/-! ### Reward allocation (C6)

The allocation loop of `main` (the block building `delegatorData`): sort the
eligible stakes descending by HP, then compute each contributor's base
reward `parseFloat((distributable * share).toFixed(6))` with
`share = hp / eligibleTotalHP`. -/

/-- Base rewards from the eligible-stake map.  `eligibleTotalHP` is the sum
accumulated during the eligibility loop. -/
def allocateRewards (eligibleDelegators : List (String × ℚ)) (distributable : ℚ) :
    List (String × ℚ) :=
  let eligibleTotalHP := (eligibleDelegators.map (fun p => p.2)).sum
  let sortedDelegators := sortBy (fun a b => decide (b.2 ≤ a.2)) eligibleDelegators
  sortedDelegators.map (fun p =>
    (p.1, roundTo 6 (distributable * (p.2 / eligibleTotalHP))))

theorem sum_pos_of_mem_pos (l : List ℚ) (hne : l ≠ []) (hpos : ∀ x ∈ l, 0 < x) :
    0 < l.sum := by
  induction l with
  | nil => exact absurd rfl hne
  | cons a rest ih =>
    rw [List.sum_cons]
    rcases rest.eq_nil_or_concat with h | _
    · subst h
      simpa using hpos a (List.mem_cons_self a [])
    · have ha : 0 < a := hpos a (List.mem_cons_self a rest)
      rcases rest with _ | ⟨b, bs⟩
      · simpa using ha
      · have hr : 0 < (b :: bs).sum := ih (List.cons_ne_nil b bs)
          (fun x hx => hpos x (List.mem_cons_of_mem a hx))
        linarith

theorem abs_sum_roundTo_sub_le (p : ℕ) (xs : List ℚ) :
    |(xs.map (roundTo p)).sum - xs.sum| ≤ xs.length * (1 / (2 * 10 ^ p)) := by
  induction xs with
  | nil => simp
  | cons x rest ih =>
    rw [List.map_cons, List.sum_cons, List.sum_cons, List.length_cons]
    have hx := abs_roundTo_sub_le p x
    calc |roundTo p x + (rest.map (roundTo p)).sum - (x + rest.sum)|
        = |(roundTo p x - x) + ((rest.map (roundTo p)).sum - rest.sum)| := by
          ring_nf
      _ ≤ |roundTo p x - x| + |(rest.map (roundTo p)).sum - rest.sum| := abs_add _ _
      _ ≤ 1 / (2 * 10 ^ p) + rest.length * (1 / (2 * 10 ^ p)) := by
          exact add_le_add hx ih
      _ = (rest.length + 1) * (1 / (2 * 10 ^ p)) := by ring
      _ = (rest.length + 1 : ℕ) * (1 / (2 * 10 ^ p)) := by push_cast; ring

/-- C6: allocation conserves the distributable amount up to rounding.  For a
non-empty map of positive eligible stakes and distributable `D ≥ 0`, every
produced reward is `D * stake / totalStake` rounded once to 6 decimal
places, and the rounded rewards sum to within `10⁻⁶ × contributorCount`
of `D`. -/
theorem C6_allocation_conservation :
    ∀ (eligibleDelegators : List (String × ℚ)) (distributable : ℚ),
      eligibleDelegators ≠ [] →
      (∀ p ∈ eligibleDelegators, 0 < p.2) →
      0 ≤ distributable →
      ((∀ r ∈ allocateRewards eligibleDelegators distributable,
          ∃ p ∈ eligibleDelegators, r.1 = p.1 ∧
            r.2 = roundTo 6 (distributable *
              (p.2 / ((eligibleDelegators.map (fun q => q.2)).sum)))) ∧
        |((allocateRewards eligibleDelegators distributable).map (fun r => r.2)).sum -
            distributable| ≤ eligibleDelegators.length * (1 / 1000000)) := by
  intro dl D hne hpos _hD
  have hperm := sortBy_perm (fun a b : String × ℚ => decide (b.2 ≤ a.2)) dl
  set T : ℚ := (dl.map (fun p => p.2)).sum with hT
  have hTpos : 0 < T := by
    rw [hT]
    apply sum_pos_of_mem_pos
    · intro h0
      exact hne (List.map_eq_nil_iff.mp h0)
    · intro x hx
      rcases List.mem_map.mp hx with ⟨p, hp, hpx⟩
      rw [← hpx]
      exact hpos p hp
  constructor
  · intro r hr
    rcases List.mem_map.mp hr with ⟨p, hp, hpr⟩
    exact ⟨p, hperm.mem_iff.mp hp, by rw [← hpr], by rw [← hpr]⟩
  · have hmapmap :
        (allocateRewards dl D).map (fun r => r.2) =
          ((sortBy (fun a b : String × ℚ => decide (b.2 ≤ a.2)) dl).map
            (fun p => D * (p.2 / T))).map (roundTo 6) := by
      unfold allocateRewards
      rw [← hT, List.map_map, List.map_map]
      rfl
    set xs : List ℚ :=
      (sortBy (fun a b : String × ℚ => decide (b.2 ≤ a.2)) dl).map
        (fun p => D * (p.2 / T)) with hxs
    have hsum : xs.sum = D := by
      rw [hxs]
      have hfe : (fun p : String × ℚ => D * (p.2 / T)) =
          (fun p : String × ℚ => (D / T) * p.2) := by
        funext p
        field_simp
      rw [hfe]
      have := List.sum_map_mul_left
        (sortBy (fun a b : String × ℚ => decide (b.2 ≤ a.2)) dl)
        (fun p : String × ℚ => p.2) (D / T)
      rw [this, (hperm.map (fun p : String × ℚ => p.2)).sum_eq, ← hT]
      field_simp
    have hlen : xs.length = dl.length := by
      rw [hxs, List.length_map, hperm.length_eq]
    have hb := abs_sum_roundTo_sub_le 6 xs
    rw [hsum, hlen] at hb
    rw [hmapmap]
    calc |(xs.map (roundTo 6)).sum - D| ≤ dl.length * (1 / (2 * 10 ^ 6)) := hb
      _ ≤ dl.length * (1 / 1000000) := by
          apply mul_le_mul_of_nonneg_left _ (by positivity)
          norm_num

/-- Witness for C6 at the concrete stakes `[("a", 1), ("b", 3)]` and
distributable 2: the rounded rewards sum to within `2 × 10⁻⁶` of 2. -/
theorem C6_allocation_conservation_witness :
    |((allocateRewards [("a", 1), ("b", 3)] 2).map (fun r => r.2)).sum - 2| ≤
      ([("a", (1:ℚ)), ("b", 3)].length : ℚ) * (1 / 1000000) :=
  (C6_allocation_conservation [("a", 1), ("b", 3)] 2 (List.cons_ne_nil _ _)
    (by
      intro p hp
      rcases List.mem_cons.mp hp with h | h
      · rw [h]
        norm_num
      · rcases List.mem_cons.mp h with h2 | h2
        · rw [h2]
          norm_num
        · simp at h2)
    (by norm_num)).2

/-! ### String helpers used by the payout executor

JavaScript string operations modelled character-wise (account ids are
ASCII). -/

/-- ASCII lowercasing of one character (the fragment of JS `toLowerCase`
relevant to account ids). -/
def lowerChar (c : Char) : Char :=
  if 'A' ≤ c ∧ c ≤ 'Z' then Char.ofNat (c.toNat + 32) else c

/-- JS `s.toLowerCase()`. -/
def toLowerCase (s : String) : String := String.mk (s.data.map lowerChar)

/-- Whitespace test for `trim`. -/
def isSpaceChar (c : Char) : Bool :=
  c = ' ' ∨ c = '\t' ∨ c = '\n' ∨ c = '\r'

/-- JS `s.trim()`: drop leading and trailing whitespace. -/
def trimStr (s : String) : String :=
  String.mk (((s.data.dropWhile isSpaceChar).reverse.dropWhile isSpaceChar).reverse)

/-- Accumulating helper for `split(',')`; `acc` is the current field,
reversed. -/
def splitCommaAux : List Char → List Char → List String
  | [], acc => [String.mk acc.reverse]
  | c :: cs, acc =>
    if c = ',' then String.mk acc.reverse :: splitCommaAux cs []
    else splitCommaAux cs (c :: acc)

/-- JS `s.split(',')`. -/
def splitComma (s : String) : List String := splitCommaAux s.data []

/-! ### Chunked payout executor (`send_sbi.js`) -/

/-- Model of `send_sbi.js` `getExcludedDelegators()`: merge the persisted
`config.json` `excluded_from_sbi` list with the comma-separated
`SBI_EXCLUDE` environment list (entries trimmed, blank entries dropped by
`filter(Boolean)`), then lowercase everything.  The JS `Set` only
deduplicates; membership is unchanged, so a list models it. -/
def getExcludedDelegators (cfgExcludedFromSbi : List String)
    (sbiExcludeEnv : String) : List String :=
  let fromFile := cfgExcludedFromSbi
  let fromEnv := ((splitComma sbiExcludeEnv).map trimStr).filter (fun s => s ≠ "")
  (fromFile ++ fromEnv).map toLowerCase

/-- The exclusion-skip test of the `processSBIPayouts` loop:
`excluded.has(delegator.toLowerCase())`. -/
def isExcludedSkip (cfgExcludedFromSbi : List String) (sbiExcludeEnv : String)
    (delegator : String) : Bool :=
  (getExcludedDelegators cfgExcludedFromSbi sbiExcludeEnv).contains
    (toLowerCase delegator)

/-- One value of the `delegator_balances.json` map. -/
structure BalanceData where
  balance : ℚ
  total_sent : ℚ
  last_updated : String

/-- One `sbi_log.json` record. -/
structure SbiLogEntry where
  date : String
  delegator : String
  sent : ℚ

/-- The payout unit `SBI_CHUNK = 1.0`. -/
def SBI_CHUNK : ℚ := 1

/-- Outcome of draining one delegator: final balance data, the log entries
appended (in order), the number of confirmed transfers and the number of
`sendSBI` calls made. -/
structure DrainResult where
  data : BalanceData
  logs : List SbiLogEntry
  confirmed : ℕ
  attempts : ℕ

/-- The inner `while (data.balance >= SBI_CHUNK)` loop of
`processSBIPayouts` for one delegator.  `sendOk n` is the outcome of the
n-th `sendSBI` call for this delegator (`true` = confirmed transfer; in
dry-run mode always `true`).  On success the balance is decremented, the
running total incremented and one log entry recorded, all before the next
attempt; on failure the loop breaks and the delegator is abandoned for this
cycle.  `fuel` bounds the iterations of the model only — the real loop
terminates because the balance strictly decreases by one chunk. -/
def drainLoop (sendOk : ℕ → Bool) (today delegator : String) :
    ℕ → ℕ → BalanceData → DrainResult
  | 0, _, data => ⟨data, [], 0, 0⟩
  | fuel + 1, attempt, data =>
    if SBI_CHUNK ≤ data.balance then
      if sendOk attempt then
        let r := drainLoop sendOk today delegator fuel (attempt + 1)
          { balance := formatHIVE (data.balance - SBI_CHUNK),
            total_sent := formatHIVE (data.total_sent + SBI_CHUNK),
            last_updated := today }
        ⟨r.data, { date := today, delegator := delegator, sent := SBI_CHUNK } :: r.logs,
          r.confirmed + 1, r.attempts + 1⟩
      else ⟨data, [], 0, 1⟩
    else ⟨data, [], 0, 0⟩

/-- Outcome of the full `processSBIPayouts` loop over the balances file. -/
structure PayoutResult where
  balances : List (String × BalanceData)
  logs : List SbiLogEntry
  confirmed : ℕ
  attempts : ℕ

/-- The `for (const [delegator, data] of Object.entries(balances))` loop of
`processSBIPayouts`: skip the reserved `_meta` key, skip delegators whose
lowercased id is in the exclusion set (their entry is left untouched and no
send happens), and drain every other entry in 1-HIVE chunks.  `sendOk d n`
is the outcome of the n-th send for delegator `d`. -/
def processEntries (excluded : List String) (sendOk : String → ℕ → Bool)
    (today : String) (fuel : ℕ) :
    List (String × BalanceData) → PayoutResult
  | [] => ⟨[], [], 0, 0⟩
  | (delegator, data) :: rest =>
    let restR := processEntries excluded sendOk today fuel rest
    if delegator = "_meta" then
      ⟨(delegator, data) :: restR.balances, restR.logs, restR.confirmed, restR.attempts⟩
    else if excluded.contains (toLowerCase delegator) then
      ⟨(delegator, data) :: restR.balances, restR.logs, restR.confirmed, restR.attempts⟩
    else
      let dR := drainLoop (sendOk delegator) today delegator fuel 0 data
      ⟨(delegator, dR.data) :: restR.balances, dR.logs ++ restR.logs,
        dR.confirmed + restR.confirmed, dR.attempts + restR.attempts⟩

/-- The per-entry effect of the loop on the balances map (skip `_meta` and
excluded ids, otherwise drain). -/
def processOneEntry (excluded : List String) (sendOk : String → ℕ → Bool)
    (today : String) (fuel : ℕ) (p : String × BalanceData) : String × BalanceData :=
  if p.1 = "_meta" ∨ excluded.contains (toLowerCase p.1) = true then p
  else (p.1, (drainLoop (sendOk p.1) today p.1 fuel 0 p.2).data)

/-- The log entries contributed by one balances entry. -/
def entryLogs (excluded : List String) (sendOk : String → ℕ → Bool)
    (today : String) (fuel : ℕ) (p : String × BalanceData) : List SbiLogEntry :=
  if p.1 = "_meta" ∨ excluded.contains (toLowerCase p.1) = true then []
  else (drainLoop (sendOk p.1) today p.1 fuel 0 p.2).logs

/-- The number of send attempts contributed by one balances entry. -/
def entryAttempts (excluded : List String) (sendOk : String → ℕ → Bool)
    (today : String) (fuel : ℕ) (p : String × BalanceData) : ℕ :=
  if p.1 = "_meta" ∨ excluded.contains (toLowerCase p.1) = true then 0
  else (drainLoop (sendOk p.1) today p.1 fuel 0 p.2).attempts

theorem processOneEntry_skip (excluded : List String) (sendOk : String → ℕ → Bool)
    (today : String) (fuel : ℕ) (p : String × BalanceData)
    (h : p.1 = "_meta" ∨ excluded.contains (toLowerCase p.1) = true) :
    processOneEntry excluded sendOk today fuel p = p := if_pos h

theorem entryLogs_skip (excluded : List String) (sendOk : String → ℕ → Bool)
    (today : String) (fuel : ℕ) (p : String × BalanceData)
    (h : p.1 = "_meta" ∨ excluded.contains (toLowerCase p.1) = true) :
    entryLogs excluded sendOk today fuel p = [] := if_pos h

theorem entryAttempts_skip (excluded : List String) (sendOk : String → ℕ → Bool)
    (today : String) (fuel : ℕ) (p : String × BalanceData)
    (h : p.1 = "_meta" ∨ excluded.contains (toLowerCase p.1) = true) :
    entryAttempts excluded sendOk today fuel p = 0 := if_pos h

theorem processOneEntry_drain (excluded : List String) (sendOk : String → ℕ → Bool)
    (today : String) (fuel : ℕ) (p : String × BalanceData)
    (h : ¬ (p.1 = "_meta" ∨ excluded.contains (toLowerCase p.1) = true)) :
    processOneEntry excluded sendOk today fuel p =
      (p.1, (drainLoop (sendOk p.1) today p.1 fuel 0 p.2).data) := if_neg h

theorem entryLogs_drain (excluded : List String) (sendOk : String → ℕ → Bool)
    (today : String) (fuel : ℕ) (p : String × BalanceData)
    (h : ¬ (p.1 = "_meta" ∨ excluded.contains (toLowerCase p.1) = true)) :
    entryLogs excluded sendOk today fuel p =
      (drainLoop (sendOk p.1) today p.1 fuel 0 p.2).logs := if_neg h

theorem entryAttempts_drain (excluded : List String) (sendOk : String → ℕ → Bool)
    (today : String) (fuel : ℕ) (p : String × BalanceData)
    (h : ¬ (p.1 = "_meta" ∨ excluded.contains (toLowerCase p.1) = true)) :
    entryAttempts excluded sendOk today fuel p =
      (drainLoop (sendOk p.1) today p.1 fuel 0 p.2).attempts := if_neg h

theorem processEntries_characterisation (excluded : List String)
    (sendOk : String → ℕ → Bool) (today : String) (fuel : ℕ)
    (bs : List (String × BalanceData)) :
    (processEntries excluded sendOk today fuel bs).balances =
      bs.map (processOneEntry excluded sendOk today fuel) ∧
    (processEntries excluded sendOk today fuel bs).logs =
      (bs.map (entryLogs excluded sendOk today fuel)).flatten ∧
    (processEntries excluded sendOk today fuel bs).attempts =
      (bs.map (entryAttempts excluded sendOk today fuel)).sum := by
  induction bs with
  | nil => exact ⟨rfl, rfl, rfl⟩
  | cons p rest ih =>
    rcases p with ⟨delegator, data⟩
    rw [List.map_cons, List.map_cons, List.map_cons, List.flatten_cons, List.sum_cons]
    by_cases hm : delegator = "_meta"
    · have hsk : (delegator, data).1 = "_meta" ∨
          excluded.contains (toLowerCase (delegator, data).1) = true := Or.inl hm
      rw [processOneEntry_skip _ _ _ _ _ hsk, entryLogs_skip _ _ _ _ _ hsk,
        entryAttempts_skip _ _ _ _ _ hsk]
      show (processEntries excluded sendOk today fuel ((delegator, data) :: rest)).balances
          = (delegator, data) :: rest.map (processOneEntry excluded sendOk today fuel) ∧
        (processEntries excluded sendOk today fuel ((delegator, data) :: rest)).logs
          = [] ++ (rest.map (entryLogs excluded sendOk today fuel)).flatten ∧
        (processEntries excluded sendOk today fuel ((delegator, data) :: rest)).attempts
          = 0 + (rest.map (entryAttempts excluded sendOk today fuel)).sum
      unfold processEntries
      rw [if_pos hm]
      exact ⟨by rw [ih.1], by rw [ih.2.1, List.nil_append], by rw [ih.2.2, Nat.zero_add]⟩
    · by_cases he : excluded.contains (toLowerCase delegator) = true
      · have hsk : (delegator, data).1 = "_meta" ∨
            excluded.contains (toLowerCase (delegator, data).1) = true := Or.inr he
        rw [processOneEntry_skip _ _ _ _ _ hsk, entryLogs_skip _ _ _ _ _ hsk,
          entryAttempts_skip _ _ _ _ _ hsk]
        unfold processEntries
        rw [if_neg hm, if_pos he]
        exact ⟨by rw [ih.1], by rw [ih.2.1, List.nil_append], by rw [ih.2.2, Nat.zero_add]⟩
      · have hns : ¬ ((delegator, data).1 = "_meta" ∨
            excluded.contains (toLowerCase (delegator, data).1) = true) := by
          intro hcon
          rcases hcon with h | h
          · exact hm h
          · exact he h
        rw [processOneEntry_drain _ _ _ _ _ hns, entryLogs_drain _ _ _ _ _ hns,
          entryAttempts_drain _ _ _ _ _ hns]
        unfold processEntries
        rw [if_neg hm, if_neg he]
        exact ⟨by rw [ih.1], by rw [ih.2.1], by rw [ih.2.2]⟩

/-! ### Durable state and crash schedules (C1)

`processSBIPayouts` loads `delegator_balances.json` and `sbi_log.json`,
mutates them in memory per confirmed transfer, and calls `saveJSON` on both
files once, after the loop over all delegators.  A crash before those final
saves therefore persists nothing, while the confirmed transfers have already
happened externally. -/

/-- The durable (on-disk) state touched by the payout executor. -/
structure Durable where
  balances : List (String × BalanceData)
  sbiLog : List SbiLogEntry

/-- One completed run of `processSBIPayouts`: process all entries in memory,
then persist the updated balances and the appended log.  The second
component is the number of confirmed external transfers of the run. -/
def runToCompletion (excluded : List String) (sendOk : String → ℕ → Bool)
    (today : String) (fuel : ℕ) (st : Durable) : Durable × ℕ :=
  let r := processEntries excluded sendOk today fuel st.balances
  (⟨r.balances, st.sbiLog ++ r.logs⟩, r.confirmed)

/-- A run that crashes after `k` confirmed transfers (or just before the
final `saveJSON` when `k` is not smaller than the run's total): the durable
state is untouched, while `min k total` transfers happened externally. -/
def runWithCrash (excluded : List String) (sendOk : String → ℕ → Bool)
    (today : String) (fuel : ℕ) (k : ℕ) (st : Durable) : Durable × ℕ :=
  (st, min k (runToCompletion excluded sendOk today fuel st).2)

/-- Execute a schedule of payout runs against the durable state: `none` is a
run that completes (and saves), `some k` one that crashes after `k`
confirmed transfers.  Returns the final durable state and the total number
of confirmed external transfers across the schedule. -/
def execSchedule (excluded : List String) (sendOk : String → ℕ → Bool)
    (today : String) (fuel : ℕ) : List (Option ℕ) → Durable → Durable × ℕ
  | [], st => (st, 0)
  | none :: rs, st =>
    let step := runToCompletion excluded sendOk today fuel st
    let rest := execSchedule excluded sendOk today fuel rs step.1
    (rest.1, step.2 + rest.2)
  | some k :: rs, st =>
    let step := runWithCrash excluded sendOk today fuel k st
    let rest := execSchedule excluded sendOk today fuel rs step.1
    (rest.1, step.2 + rest.2)

/-! ### Balance accumulator (`accumulator.js`) -/

/-- JSON-object lookup `balances[name]` over the association-list model. -/
def lookupBalance (balances : List (String × BalanceData)) (name : String) :
    Option BalanceData :=
  (balances.find? (fun p => p.1 == name)).map (fun p => p.2)

/-- JSON-object assignment `balances[name] = v` for an existing key. -/
def updateBalance : List (String × BalanceData) → String → BalanceData →
    List (String × BalanceData)
  | [], _, _ => []
  | p :: ps, name, v =>
    if p.1 == name then (name, v) :: ps else p :: updateBalance ps name v

/-- The per-delegator body of the `accumulate` loop (accumulator.js lines
38-56): `adjustedReward = formatHIVE(base_reward * multiplier)`; a zeroed
entry is created on first sight; then
`balances[name].balance = formatHIVE(previousBalance + adjustedReward)` and
`last_updated = today`.  There is no exclusion test anywhere in this loop:
excluded delegators accrue exactly like all others. -/
def accumulateStep (today : String) (multiplier : ℚ)
    (balances : List (String × BalanceData)) (name : String) (base_reward : ℚ) :
    List (String × BalanceData) :=
  let adjustedReward := formatHIVE (base_reward * multiplier)
  match lookupBalance balances name with
  | none =>
    balances ++ [(name, { balance := formatHIVE (0 + adjustedReward), total_sent := 0,
                          last_updated := today })]
  | some prev =>
    updateBalance balances name
      { balance := formatHIVE (prev.balance + adjustedReward),
        total_sent := prev.total_sent, last_updated := today }

/-- The stored balance before accumulation (0 for a first-seen delegator). -/
def prevBalanceOf (balances : List (String × BalanceData)) (name : String) : ℚ :=
  match lookupBalance balances name with
  | none => 0
  | some prev => prev.balance

/-- The stored lifetime total before accumulation (0 for a first-seen
delegator). -/
def prevSentOf (balances : List (String × BalanceData)) (name : String) : ℚ :=
  match lookupBalance balances name with
  | none => 0
  | some prev => prev.total_sent

theorem lookupBalance_append_self (bs : List (String × BalanceData)) (name : String)
    (v : BalanceData) (h : lookupBalance bs name = none) :
    lookupBalance (bs ++ [(name, v)]) name = some v := by
  induction bs with
  | nil => simp [lookupBalance]
  | cons p ps ih =>
    by_cases hp : (p.1 == name) = true
    · exfalso
      unfold lookupBalance at h
      rw [@List.find?_cons_of_pos _ (fun q : String × BalanceData => q.1 == name) p ps hp] at h
      simp at h
    · unfold lookupBalance at h ⊢
      rw [List.cons_append,
        @List.find?_cons_of_neg _ (fun q : String × BalanceData => q.1 == name) p
          (ps ++ [(name, v)]) hp]
      rw [@List.find?_cons_of_neg _ (fun q : String × BalanceData => q.1 == name) p ps hp] at h
      exact ih h

theorem lookupBalance_update_self (bs : List (String × BalanceData)) (name : String)
    (v prev : BalanceData) (h : lookupBalance bs name = some prev) :
    lookupBalance (updateBalance bs name v) name = some v := by
  induction bs with
  | nil => simp [lookupBalance] at h
  | cons p ps ih =>
    by_cases hp : (p.1 == name) = true
    · unfold updateBalance
      rw [if_pos hp]
      unfold lookupBalance
      rw [@List.find?_cons_of_pos _ (fun q : String × BalanceData => q.1 == name) (name, v) ps
        (by simp)]
      rfl
    · unfold updateBalance
      rw [if_neg hp]
      unfold lookupBalance at h ⊢
      rw [@List.find?_cons_of_neg _ (fun q : String × BalanceData => q.1 == name) p
        (updateBalance ps name v) hp]
      rw [@List.find?_cons_of_neg _ (fun q : String × BalanceData => q.1 == name) p ps hp] at h
      exact ih h

theorem accumulateStep_lookup (today : String) (multiplier : ℚ)
    (bs : List (String × BalanceData)) (name : String) (base_reward : ℚ) :
    lookupBalance (accumulateStep today multiplier bs name base_reward) name =
      some { balance := formatHIVE (prevBalanceOf bs name +
               formatHIVE (base_reward * multiplier)),
             total_sent := prevSentOf bs name, last_updated := today } := by
  unfold accumulateStep prevBalanceOf prevSentOf
  cases h : lookupBalance bs name with
  | none =>
    simp only [h]
    exact lookupBalance_append_self bs name _ h
  | some prev =>
    simp only [h]
    exact lookupBalance_update_self bs name _ prev h

/-! ### C9: exclusion is a pure disbursement filter -/

/-- C9: for any delegator whose lowercased id is in the merged exclusion set,
a run of the payout executor maps every balances entry through
`processOneEntry`, and for that delegator the entry is left unchanged, no
log entry is produced and no send is attempted; meanwhile the accumulation
step (which has no exclusion logic at all) accrues the multiplier-adjusted
reward onto the delegator's stored balance by exactly the same formula as
for anybody else. -/
theorem C9_exclusion_frame :
    ∀ (cfg : List String) (env : String) (sendOk : String → ℕ → Bool)
      (today : String) (fuel : ℕ) (bs : List (String × BalanceData))
      (d : String) (data : BalanceData) (multiplier base_reward : ℚ)
      (todayAcc : String) (bsAcc : List (String × BalanceData)),
      (getExcludedDelegators cfg env).contains (toLowerCase d) = true →
      ((processEntries (getExcludedDelegators cfg env) sendOk today fuel bs).balances =
          bs.map (processOneEntry (getExcludedDelegators cfg env) sendOk today fuel) ∧
        processOneEntry (getExcludedDelegators cfg env) sendOk today fuel (d, data) =
          (d, data) ∧
        entryLogs (getExcludedDelegators cfg env) sendOk today fuel (d, data) = [] ∧
        entryAttempts (getExcludedDelegators cfg env) sendOk today fuel (d, data) = 0 ∧
        lookupBalance (accumulateStep todayAcc multiplier bsAcc d base_reward) d =
          some { balance := formatHIVE (prevBalanceOf bsAcc d +
                   formatHIVE (base_reward * multiplier)),
                 total_sent := prevSentOf bsAcc d, last_updated := todayAcc }) := by
  intro cfg env sendOk today fuel bs d data multiplier base_reward todayAcc bsAcc hex
  refine ⟨(processEntries_characterisation _ _ _ _ bs).1,
    processOneEntry_skip _ _ _ _ _ (Or.inr hex),
    entryLogs_skip _ _ _ _ _ (Or.inr hex),
    entryAttempts_skip _ _ _ _ _ (Or.inr hex),
    accumulateStep_lookup todayAcc multiplier bsAcc d base_reward⟩

/-- Witness for C9: "gARY" is excluded through config entry "Gary"; with a
balance of 5.0 the executor leaves the entry alone, logs nothing and
attempts nothing, while accumulation still updates the stored balance. -/
theorem C9_exclusion_frame_witness :
    processOneEntry (getExcludedDelegators ["Gary"] "") (fun _ _ => true)
        "2024-05-02" 3 ("gARY", ⟨5, 0, "2024-05-01"⟩) = ("gARY", ⟨5, 0, "2024-05-01"⟩) ∧
      entryAttempts (getExcludedDelegators ["Gary"] "") (fun _ _ => true)
        "2024-05-02" 3 ("gARY", ⟨5, 0, "2024-05-01"⟩) = 0 :=
  ⟨((C9_exclusion_frame ["Gary"] "" (fun _ _ => true) "2024-05-02" 3 []
      "gARY" ⟨5, 0, "2024-05-01"⟩ 1 1 "2024-05-02" [] (by decide)).2.1),
    ((C9_exclusion_frame ["Gary"] "" (fun _ _ => true) "2024-05-02" 3 []
      "gARY" ⟨5, 0, "2024-05-01"⟩ 1 1 "2024-05-02" [] (by decide)).2.2.2.1)⟩

/-! ### C10: exclusion matching is case-insensitive -/

/-- C10: the executor's skip test lowercases both sides — a delegator is
skipped if and only if some id in the merged raw exclusion source (the
config list plus the comma-split, trimmed, non-blank environment entries)
lowercases to the delegator's lowercased id; consequently ids differing only
in letter case are excluded alike. -/
theorem C10_case_insensitive_exclusion :
    ∀ (cfg : List String) (env : String) (d₁ d₂ : String),
      (isExcludedSkip cfg env d₁ = true ↔
        ∃ x ∈ cfg ++ ((splitComma env).map trimStr).filter (fun s => s ≠ ""),
          toLowerCase x = toLowerCase d₁) ∧
      (toLowerCase d₁ = toLowerCase d₂ →
        isExcludedSkip cfg env d₁ = isExcludedSkip cfg env d₂) := by
  intro cfg env d₁ d₂
  constructor
  · unfold isExcludedSkip getExcludedDelegators
    rw [List.elem_iff, List.mem_map]
  · intro h
    unfold isExcludedSkip
    rw [h]

/-- Witness for C10: "ALICE" and "alice" are both skipped for the config
exclusion "Alice" (same skip outcome). -/
theorem C10_case_insensitive_exclusion_witness :
    isExcludedSkip ["Alice"] " bob , ,Carol " "ALICE" =
      isExcludedSkip ["Alice"] " bob , ,Carol " "alice" :=
  (C10_case_insensitive_exclusion ["Alice"] " bob , ,Carol " "ALICE" "alice").2 (by decide)

/-! ### Concrete `formatHIVE` values -/

theorem formatHIVE_eval (x : ℚ) (n : ℤ) (h1 : (n : ℚ) ≤ x * 10 ^ 3 + 1 / 2)
    (h2 : x * 10 ^ 3 + 1 / 2 < n + 1) : formatHIVE x = (n : ℚ) / 10 ^ 3 :=
  roundTo_eq_of_bounds 3 x n h1 h2

theorem formatHIVE_zero : formatHIVE 0 = 0 := by
  rw [formatHIVE_eval 0 0 (by norm_num) (by norm_num)]
  norm_num

theorem formatHIVE_one : formatHIVE 1 = 1 := by
  rw [formatHIVE_eval 1 1000 (by norm_num) (by norm_num)]
  norm_num

theorem formatHIVE_two : formatHIVE 2 = 2 := by
  rw [formatHIVE_eval 2 2000 (by norm_num) (by norm_num)]
  norm_num

theorem formatHIVE_seven_fifths : formatHIVE (7 / 5) = 7 / 5 := by
  rw [formatHIVE_eval (7 / 5) 1400 (by norm_num) (by norm_num)]
  norm_num

theorem formatHIVE_two_fifths : formatHIVE (2 / 5) = 2 / 5 := by
  rw [formatHIVE_eval (2 / 5) 400 (by norm_num) (by norm_num)]
  norm_num

/-! ### C7: the 2.4-balance scenario -/

/-- C7: with a non-excluded contributor at balance 2.4 and the 1.0 payout
unit, when every transfer attempt succeeds the executor makes exactly two
(successful) payout attempts, leaves the ending balance at 0.4, raises
`total_sent` from 0 to 2.0, and appends exactly two log entries. -/
theorem C7_two_chunk_payout :
    processEntries [] (fun _ _ => true) "2024-05-02" 5
        [("alice", ⟨12 / 5, 0, "2024-05-01"⟩)] =
      ⟨[("alice", ⟨2 / 5, 2, "2024-05-02"⟩)],
        [⟨"2024-05-02", "alice", 1⟩, ⟨"2024-05-02", "alice", 1⟩], 2, 2⟩ := by
  have s2 : drainLoop (fun _ => true) "2024-05-02" "alice" 3 2 ⟨2 / 5, 2, "2024-05-02"⟩ =
      ⟨⟨2 / 5, 2, "2024-05-02"⟩, [], 0, 0⟩ := by
    unfold drainLoop
    rw [if_neg (by norm_num [SBI_CHUNK])]
  have s1 : drainLoop (fun _ => true) "2024-05-02" "alice" 4 1 ⟨7 / 5, 1, "2024-05-02"⟩ =
      ⟨⟨2 / 5, 2, "2024-05-02"⟩, [⟨"2024-05-02", "alice", 1⟩], 1, 1⟩ := by
    unfold drainLoop
    rw [if_pos (by norm_num [SBI_CHUNK])]
    norm_num [SBI_CHUNK, formatHIVE_two_fifths, formatHIVE_two, s2]
  have s0 : drainLoop (fun _ => true) "2024-05-02" "alice" 5 0 ⟨12 / 5, 0, "2024-05-01"⟩ =
      ⟨⟨2 / 5, 2, "2024-05-02"⟩,
        [⟨"2024-05-02", "alice", 1⟩, ⟨"2024-05-02", "alice", 1⟩], 2, 2⟩ := by
    unfold drainLoop
    rw [if_pos (by norm_num [SBI_CHUNK])]
    norm_num [SBI_CHUNK, formatHIVE_seven_fifths, formatHIVE_one, s1]
  unfold processEntries
  rw [if_neg (by decide), if_neg (by decide)]
  unfold processEntries
  norm_num [s0]

/-! ### C1: durability of the payout loop across crashes -/

/-- C1 counterexample: the balance decrement and log append are *not* made
durable per confirmed transfer — both files are saved once after the whole
loop — so a run that crashes after 1 confirmed transfer leaves the durable
balance at 2.0, and the restarted run re-sends both chunks: 3 confirmed
transfers in total against 2 for a crash-free run, i.e. one double payout. -/
theorem C1_crash_double_payout_cex :
    (execSchedule [] (fun _ _ => true) "2024-05-02" 3 [some 1, none]
        ⟨[("alice", ⟨2, 0, "2024-05-01"⟩)], []⟩).2 = 3 ∧
    (execSchedule [] (fun _ _ => true) "2024-05-02" 3 [none]
        ⟨[("alice", ⟨2, 0, "2024-05-01"⟩)], []⟩).2 = 2 ∧
    (execSchedule [] (fun _ _ => true) "2024-05-02" 3 [some 1]
        ⟨[("alice", ⟨2, 0, "2024-05-01"⟩)], []⟩).1 =
      ⟨[("alice", ⟨2, 0, "2024-05-01"⟩)], []⟩ ∧
    ¬ ((execSchedule [] (fun _ _ => true) "2024-05-02" 3 [some 1, none]
          ⟨[("alice", ⟨2, 0, "2024-05-01"⟩)], []⟩).2 ≤
        (execSchedule [] (fun _ _ => true) "2024-05-02" 3 [none]
          ⟨[("alice", ⟨2, 0, "2024-05-01"⟩)], []⟩).2) := by
  have hdrain : drainLoop (fun _ => true) "2024-05-02" "alice" 3 0 ⟨2, 0, "2024-05-01"⟩ =
      ⟨⟨0, 2, "2024-05-02"⟩,
        [⟨"2024-05-02", "alice", 1⟩, ⟨"2024-05-02", "alice", 1⟩], 2, 2⟩ := by
    have t1 : drainLoop (fun _ => true) "2024-05-02" "alice" 1 2 ⟨0, 2, "2024-05-02"⟩ =
        ⟨⟨0, 2, "2024-05-02"⟩, [], 0, 0⟩ := by
      unfold drainLoop
      rw [if_neg (by norm_num [SBI_CHUNK])]
    have t2 : drainLoop (fun _ => true) "2024-05-02" "alice" 2 1 ⟨1, 1, "2024-05-02"⟩ =
        ⟨⟨0, 2, "2024-05-02"⟩, [⟨"2024-05-02", "alice", 1⟩], 1, 1⟩ := by
      unfold drainLoop
      rw [if_pos (by norm_num [SBI_CHUNK])]
      norm_num [SBI_CHUNK, formatHIVE_zero, formatHIVE_two, t1]
    unfold drainLoop
    rw [if_pos (by norm_num [SBI_CHUNK])]
    norm_num [SBI_CHUNK, formatHIVE_one, t2]
  have hrun : runToCompletion [] (fun _ _ => true) "2024-05-02" 3
      ⟨[("alice", ⟨2, 0, "2024-05-01"⟩)], []⟩ =
      (⟨[("alice", ⟨0, 2, "2024-05-02"⟩)],
        [⟨"2024-05-02", "alice", 1⟩, ⟨"2024-05-02", "alice", 1⟩]⟩, 2) := by
    unfold runToCompletion
    unfold processEntries
    rw [if_neg (by decide), if_neg (by decide)]
    unfold processEntries
    norm_num [hdrain]
  refine ⟨?_, ?_, ?_, ?_⟩
  · norm_num [execSchedule, runWithCrash, hrun]
  · norm_num [execSchedule, hrun]
  · norm_num [execSchedule, runWithCrash]
  · norm_num [execSchedule, runWithCrash, hrun]

/-- C1 (amended): within one run the decrement and log append happen in
memory after each confirmed transfer and before the next attempt, but they
become durable only through the single save after the loop over all
contributors.  Hence a crashed run leaves the durable state exactly as it
was; a crash-restart schedule ending in a completed run reaches the same
durable state as a crash-free run, and its total number of confirmed
external transfers is at least — and can exceed — the crash-free total. -/
theorem C1_crash_schedule_behaviour :
    ∀ (excluded : List String) (sendOk : String → ℕ → Bool) (today : String)
      (fuel : ℕ) (st : Durable) (ks : List ℕ),
      (execSchedule excluded sendOk today fuel (ks.map some) st).1 = st ∧
      (execSchedule excluded sendOk today fuel (ks.map some ++ [none]) st).1 =
        (execSchedule excluded sendOk today fuel [none] st).1 ∧
      (execSchedule excluded sendOk today fuel [none] st).2 ≤
        (execSchedule excluded sendOk today fuel (ks.map some ++ [none]) st).2 := by
  intro excluded sendOk today fuel st ks
  induction ks with
  | nil => exact ⟨rfl, rfl, le_rfl⟩
  | cons k rest ih =>
    refine ⟨?_, ?_, ?_⟩
    · show (execSchedule excluded sendOk today fuel (rest.map some) st).1 = st
      exact ih.1
    · show (execSchedule excluded sendOk today fuel (rest.map some ++ [none]) st).1 =
        (execSchedule excluded sendOk today fuel [none] st).1
      exact ih.2.1
    · show (execSchedule excluded sendOk today fuel [none] st).2 ≤
        min k (runToCompletion excluded sendOk today fuel st).2 +
          (execSchedule excluded sendOk today fuel (rest.map some ++ [none]) st).2
      exact le_trans ih.2.2 (Nat.le_add_left _ _)

/-! ### Accumulation-stage validation (`fetch_rewards.js`, C8) -/

/-- A parsed `payout_summary.json` delegator row as validated by
`fetch_rewards.js`: `name` (an empty string models a missing/falsy name) and
`base_reward` (`none` models a missing or non-numeric field). -/
structure RawDelegator where
  name : String
  base_reward : Option ℚ

/-- A parsed `payout_summary.json` as validated by `fetch_rewards.js`.  An
empty `date` models a missing/falsy date; `none` in `total_delegation_hp`
models a missing or non-numeric field; `none` in `delegators` models a
missing or non-array field. -/
structure RawPayoutSummary where
  date : String
  total_delegation_hp : Option ℚ
  delegators : Option (List RawDelegator)

/-- Model of `fetch_rewards.js` `fetchRewards()`: load `payout_summary.json` (`none`
is the `loadJSON` fallback `null` for a missing or unparsable file), then
validate: a falsy `date`, a non-numeric `total_delegation_hp`, a
non-array-or-empty `delegators`, or any delegator entry with a falsy `name`
or non-numeric `base_reward` each cause `process.exit(1)`, modelled as
`Except.error ()`.  (The source loop exits on the first invalid entry; only
the exit outcome is observable, so an all-entries check is equivalent.) -/
def fetchRewards (input : Option RawPayoutSummary) : Except Unit RawPayoutSummary :=
  match input with
  | none => Except.error ()
  | some payoutSummary =>
    if payoutSummary.date = "" then Except.error ()
    else match payoutSummary.total_delegation_hp with
      | none => Except.error ()
      | some _ =>
        match payoutSummary.delegators with
        | none => Except.error ()
        | some ds =>
          if ds.length = 0 then Except.error ()
          else if ds.all (fun d => !(d.name == "") && d.base_reward.isSome) then
            Except.ok payoutSummary
          else Except.error ()

/-- C8 counterexample: a structurally well-formed summary (non-empty date,
numeric total, delegators field present as an array) that reports zero
eligible contributors makes the accumulation stage exit *non-zero* — the
empty `delegators` array trips the `has no delegators` fatal check — rather
than terminating as a normal early-success exit as the claim states. -/
theorem C8_zero_contributors_cex :
    fetchRewards (some ⟨"2025-06-01", some 0, some []⟩) = Except.error () := rfl

/-- C8 (amended): a missing or structurally invalid `payout_summary.json`
(falsy date, non-numeric total, missing delegators array) is a fatal
non-zero exit for the accumulation stage, and so is a well-formed summary
with an *empty* delegators list; a well-formed summary with a non-empty
delegators list passes validation even when every base reward is 0 (zero
distributable earnings), after which the stage simply accrues zero — there
is no early exit, only a normal successful run. -/
theorem C8_exit_behaviour :
    (fetchRewards none = Except.error ()) ∧
    (∀ s : RawPayoutSummary, s.date = "" → fetchRewards (some s) = Except.error ()) ∧
    (∀ s : RawPayoutSummary, s.total_delegation_hp = none →
      fetchRewards (some s) = Except.error ()) ∧
    (∀ s : RawPayoutSummary, s.delegators = none →
      fetchRewards (some s) = Except.error ()) ∧
    (∀ s : RawPayoutSummary, s.delegators = some [] →
      fetchRewards (some s) = Except.error ()) ∧
    (∀ (s : RawPayoutSummary) (ds : List RawDelegator),
      s.date ≠ "" → s.total_delegation_hp.isSome → s.delegators = some ds → ds ≠ [] →
      (∀ d ∈ ds, d.name ≠ "" ∧ d.base_reward = some 0) →
      fetchRewards (some s) = Except.ok s) := by
  refine ⟨rfl, ?_, ?_, ?_, ?_, ?_⟩
  · intro s hs
    simp only [fetchRewards]
    rw [if_pos hs]
  · intro s hs
    simp only [fetchRewards]
    by_cases hd : s.date = ""
    · rw [if_pos hd]
    · rw [if_neg hd, hs]
  · intro s hs
    simp only [fetchRewards]
    by_cases hd : s.date = ""
    · rw [if_pos hd]
    · rw [if_neg hd]
      cases hhp : s.total_delegation_hp with
      | none => rfl
      | some q => rw [hs]
  · intro s hs
    simp only [fetchRewards]
    by_cases hd : s.date = ""
    · rw [if_pos hd]
    · rw [if_neg hd]
      cases hhp : s.total_delegation_hp with
      | none => rfl
      | some q =>
        rw [hs]
        rfl
  · intro s ds hdate hhp hds hne hall
    simp only [fetchRewards]
    rw [if_neg hdate]
    cases hq : s.total_delegation_hp with
    | none =>
      rw [hq] at hhp
      exact absurd hhp (by simp)
    | some q =>
      rw [hds]
      show (if ds.length = 0 then Except.error ()
        else if (ds.all fun d => !(d.name == "") && d.base_reward.isSome) = true then
          Except.ok s
        else Except.error ()) = Except.ok s
      rw [if_neg (by
        intro hlen
        exact hne (List.length_eq_zero.mp hlen))]
      rw [if_pos (by
        rw [List.all_eq_true]
        intro d hd
        rcases hall d hd with ⟨hn, hb⟩
        simp [hn, hb])]

/-- Witness for C8's amended statement: a well-formed summary whose single
delegator has base reward 0 passes validation (normal run), and the
empty-delegators summary is rejected. -/
theorem C8_exit_behaviour_witness :
    fetchRewards (some ⟨"2025-06-01", some 8000, some [⟨"alice", some 0⟩]⟩) =
      Except.ok ⟨"2025-06-01", some 8000, some [⟨"alice", some 0⟩]⟩ :=
  C8_exit_behaviour.2.2.2.2.2 ⟨"2025-06-01", some 8000, some [⟨"alice", some 0⟩]⟩
    [⟨"alice", some 0⟩] (by decide) rfl rfl (List.cons_ne_nil _ _)
    (by
      intro d hd
      rcases List.mem_cons.mp hd with h | h
      · rw [h]
        exact ⟨by decide, rfl⟩
      · simp at h)

end HiveRewarder
